import Mathlib

/-!
Verification of the inventory-management accounting core.

The development shallowly embeds the ledger arithmetic of `inventory.py`
(`Item`, `Inventory`) and `inventory_ui.py` (`Item`, `EnhancedInventory`).
Python monetary values are modelled as exact rationals (`ℚ`), with the
rounding steps of the source (`round(x, 4)`, `round(x, 2)`) modelled as
decimal round-half-to-even (banker's rounding), which is the rounding mode
the source relies on.  Quantities are Python integers, modelled as `ℤ`.
Timestamps, auto-generated barcodes, autoincrement row ids and the SQLite
plumbing are presentation/storage concerns and are not part of the
accounting state; they are omitted from the embedding.  Python's in-place
mutation is modelled by explicit state passing: a catalog operation returns
the *post-call* catalog together with the raised error, if any, so that
mutations performed before a `raise` (as in the source) remain visible.
-/

/-- Round half to even (banker's rounding) of a rational to the nearest
integer, as performed by Python's builtin `round`. -/
def rhe (q : ℚ) : ℤ :=
  if q - ⌊q⌋ < 1/2 then ⌊q⌋
  else if (1:ℚ)/2 < q - ⌊q⌋ then ⌊q⌋ + 1
  else if ⌊q⌋ % 2 = 0 then ⌊q⌋ else ⌊q⌋ + 1

/-- Python's `round(q, k)`: round half to even at `k` decimal places. -/
def roundTo (k : ℕ) (q : ℚ) : ℚ := (rhe (q * 10 ^ k) : ℚ) / 10 ^ k

/-- Python's `str.upper()` restricted to the character-wise case map. -/
def pyUpper (s : String) : String := ⟨s.data.map Char.toUpper⟩

/-- Python's `str.strip()`: drop whitespace from both ends. -/
def pyStrip (s : String) : String :=
  ⟨((s.data.dropWhile Char.isWhitespace).reverse.dropWhile Char.isWhitespace).reverse⟩

/-- SKU normalization used by `purchase_item`: `sku.upper().strip()`. -/
def normSku (s : String) : String := pyStrip (pyUpper s)

/-- The error conditions raised by the core (`raise ValueError(...)` in the
source, distinguished here by their message/condition). -/
inductive InvError
  | InvalidQuantity
  | InvalidPrice
  | InsufficientStock
  | ItemNotFound
  deriving Repr, DecidableEq

/-- The `Item` dataclass of `inventory_ui.py` (accounting fields plus the
mutable descriptive metadata; generated timestamps/barcode omitted). -/
structure Item where
  sku : String
  name : String
  category : String
  quantity : ℤ
  unit_price : ℚ
  total_cost : ℚ
  supplier : String
  location : String
  deriving Repr

/-- `Item.purchase` from `inventory_ui.py` (lines 60-73): validate, then
update quantity, weighted-average unit price (rounded to 4 decimals) and
cumulative cost (rounded to 2 decimals). -/
def Item.purchase (it : Item) (qty : ℤ) (price : ℚ) : Except InvError Item :=
  if qty ≤ 0 then .error .InvalidQuantity
  else if price < 0 then .error .InvalidPrice
  else
    let newQty := it.quantity + qty
    let newPrice := if 0 < it.quantity
      then (it.unit_price * it.quantity + price * qty) / newQty
      else price
    .ok { it with quantity := newQty,
                  unit_price := roundTo 4 newPrice,
                  total_cost := roundTo 2 (it.total_cost + qty * price) }

/-- `Item.sell` from `inventory_ui.py` (lines 75-91): validate quantity and
stock, then decrement quantity, reduce the cost basis, and return the
realized profit (rounded to 2 decimals). `unit_price` is not modified. -/
def Item.sell (it : Item) (qty : ℤ) (salePrice : Option ℚ) :
    Except InvError (ℚ × Item) :=
  if qty ≤ 0 then .error .InvalidQuantity
  else if it.quantity < qty then .error .InsufficientStock
  else
    let sp := salePrice.getD it.unit_price
    let costPerUnit := if 0 < it.quantity then it.total_cost / it.quantity else 0
    .ok (roundTo 2 ((sp - costPerUnit) * qty),
         { it with quantity := it.quantity - qty,
                   total_cost := roundTo 2 (it.total_cost - costPerUnit * qty) })

/-- The `Item` dataclass of the basic `inventory.py` (lines 26-63). -/
structure BItem where
  sku : String
  name : String
  quantity : ℤ
  unit_price : ℚ
  total_cost : ℚ
  deriving Repr

/-- `Item.purchase` from `inventory.py` (lines 37-63).  It differs from the
UI variant only in the defensive `new_total_qty == 0` guard. -/
def BItem.purchase (it : BItem) (qty : ℤ) (price : ℚ) : Except InvError BItem :=
  if qty ≤ 0 then .error .InvalidQuantity
  else if price < 0 then .error .InvalidPrice
  else
    let newQty := it.quantity + qty
    let newAvg := if newQty = 0 then 0
      else (it.unit_price * it.quantity + price * qty) / newQty
    .ok { it with quantity := newQty,
                  unit_price := roundTo 4 newAvg,
                  total_cost := roundTo 2 (it.total_cost + qty * price) }

/-- A row of the `sales` table as written by `sell_item_with_commission`
(autoincrement id and timestamp omitted). -/
structure SaleRecord where
  sku : String
  quantity : ℤ
  sale_price : ℚ
  profit : ℚ
  customer : String
  salesperson : String
  commission_rate : ℚ
  commission_amount : ℚ
  deriving Repr

/-- The Python `or` fallback `sale_price or unit_price`: `None` and the
falsy value `0` both fall back to the unit price. -/
def orPrice (salePrice : Option ℚ) (unitPrice : ℚ) : ℚ :=
  match salePrice with
  | none => unitPrice
  | some p => if p = 0 then unitPrice else p

/-- The `EnhancedInventory` catalog of `inventory_ui.py`: the SKU-indexed
item dictionary together with the append-only list of sale rows. -/
structure EnhancedInventory where
  items : String → Option Item
  sales : List SaleRecord

/-- Dictionary update `self._items[sku] = item`. -/
def EnhancedInventory.setItem (inv : EnhancedInventory) (sku : String)
    (it : Item) : EnhancedInventory :=
  { inv with items := fun s => if s = sku then some it else inv.items s }

/-- A freshly created ledger entry: zeroed quantity and costs, with the
supplied metadata (as in the `Item(...)` constructor call of the source). -/
def freshItem (sku name category supplier location : String) : Item :=
  { sku := sku, name := name, category := category, quantity := 0,
    unit_price := 0, total_cost := 0, supplier := supplier,
    location := location }

/-- `EnhancedInventory.purchase_item` (lines 307-323).  The SKU is
normalized; a missing entry is created *before* `Item.purchase` validates,
so on a validation error the freshly inserted entry remains (the returned
catalog is the post-call state, the second component the raised error). -/
def EnhancedInventory.purchase_item (inv : EnhancedInventory)
    (sku name category : String) (qty : ℤ) (price : ℚ)
    (supplier location : String) : EnhancedInventory × Option InvError :=
  let skuN := normSku sku
  match inv.items skuN with
  | some it =>
    match it.purchase qty price with
    | .error e => (inv, some e)
    | .ok it2 => (inv.setItem skuN it2, none)
  | none =>
    let it := freshItem skuN (if name = "" then "Unnamed" else name)
      category supplier location
    let inv1 := inv.setItem skuN it
    match it.purchase qty price with
    | .error e => (inv1, some e)
    | .ok it2 => (inv1.setItem skuN it2, none)

/-- `EnhancedInventory.sell_item_with_commission` (lines 326-350).  Note
that the lookup uses the *raw* SKU, and that the commission and recorded
sale price use the Python-falsy fallback `sale_price or unit_price` read
from the post-sale item. -/
def EnhancedInventory.sell_item_with_commission (inv : EnhancedInventory)
    (sku : String) (qty : ℤ) (salePrice : Option ℚ)
    (customer salesperson : String) (commissionRate : ℚ) :
    EnhancedInventory × Except InvError (ℚ × ℚ) :=
  match inv.items sku with
  | none => (inv, .error .ItemNotFound)
  | some it =>
    match it.sell qty salePrice with
    | .error e => (inv, .error e)
    | .ok (profit, it2) =>
      let inv1 := inv.setItem sku it2
      let totalSale := orPrice salePrice it2.unit_price * qty
      let commission := totalSale * (commissionRate / 100)
      let row : SaleRecord :=
        { sku := sku, quantity := qty,
          sale_price := orPrice salePrice it2.unit_price, profit := profit,
          customer := customer, salesperson := salesperson,
          commission_rate := commissionRate, commission_amount := commission }
      ({ inv1 with sales := inv1.sales ++ [row] }, .ok (profit, commission))

/-- The basic `Inventory` container of `inventory.py`. -/
structure Inventory where
  items : String → Option BItem

/-- Dictionary update for the basic catalog. -/
def Inventory.setItem (inv : Inventory) (sku : String) (it : BItem) :
    Inventory :=
  { items := fun s => if s = sku then some it else inv.items s }

/-- `Inventory.purchase_item` (lines 86-102 of `inventory.py`): normalize
the SKU; on an existing entry overwrite `name` when non-empty, otherwise
insert a fresh zeroed entry; both happen before `purchase` validates. -/
def Inventory.purchase_item (inv : Inventory) (sku name : String)
    (qty : ℤ) (price : ℚ) : Inventory × Option InvError :=
  let skuN := normSku sku
  match inv.items skuN with
  | some it0 =>
    let it := if name = "" then it0 else { it0 with name := name }
    let inv1 := inv.setItem skuN it
    match it.purchase qty price with
    | .error e => (inv1, some e)
    | .ok it2 => (inv1.setItem skuN it2, none)
  | none =>
    let it : BItem := { sku := skuN, name := name, quantity := 0,
                        unit_price := 0, total_cost := 0 }
    let inv1 := inv.setItem skuN it
    match it.purchase qty price with
    | .error e => (inv1, some e)
    | .ok it2 => (inv1.setItem skuN it2, none)

/-- One ledger operation on a single entry, for operation sequences. -/
inductive Op
  | purchase (qty : ℤ) (price : ℚ)
  | sell (qty : ℤ) (salePrice : Option ℚ)

/-- Apply one operation to an entry (the profit of a sale is discarded). -/
def applyOp (it : Item) : Op → Except InvError Item
  | .purchase qty price => it.purchase qty price
  | .sell qty salePrice => (it.sell qty salePrice).map Prod.snd

/-- Run a sequence of operations; fails if any operation fails. -/
def runOps (it : Item) : List Op → Except InvError Item
  | [] => .ok it
  | op :: ops => (applyOp it op).bind (fun it2 => runOps it2 ops)

/-- The nonnegativity invariant of a ledger entry. -/
def goodItem (it : Item) : Prop :=
  0 ≤ it.quantity ∧ 0 ≤ it.unit_price ∧ 0 ≤ it.total_cost

/-- The empty enhanced catalog. -/
def emptyEInv : EnhancedInventory := { items := fun _ => none, sales := [] }

/-- The empty basic catalog. -/
def emptyBInv : Inventory := { items := fun _ => none }

/-! ### Rounding toolkit -/

lemma rhe_intCast (n : ℤ) : rhe (n : ℚ) = n := by
  simp [rhe]

lemma le_rhe (q : ℚ) : ⌊q⌋ ≤ rhe q := by
  unfold rhe; split_ifs <;> omega

lemma rhe_le (q : ℚ) : rhe q ≤ ⌊q⌋ + 1 := by
  unfold rhe; split_ifs <;> omega

lemma rhe_mono {x y : ℚ} (h : x ≤ y) : rhe x ≤ rhe y := by
  have hf : ⌊x⌋ ≤ ⌊y⌋ := Int.floor_mono h
  by_cases hlt : ⌊x⌋ < ⌊y⌋
  · have h1 := rhe_le x
    have h2 := le_rhe y
    omega
  · have hfe : ⌊y⌋ = ⌊x⌋ := by omega
    unfold rhe
    rw [hfe]
    split_ifs <;> first | omega | linarith

lemma rhe_nonneg {q : ℚ} (h : 0 ≤ q) : 0 ≤ rhe q := by
  have h2 := rhe_mono h
  rw [show (0:ℚ) = ((0:ℤ):ℚ) by norm_num, rhe_intCast] at h2
  exact h2

lemma roundTo_mono (k : ℕ) {x y : ℚ} (h : x ≤ y) : roundTo k x ≤ roundTo k y := by
  unfold roundTo
  have hp : (0:ℚ) < 10 ^ k := by positivity
  have h2 : rhe (x * 10 ^ k) ≤ rhe (y * 10 ^ k) := rhe_mono (by nlinarith)
  have h3 : ((rhe (x * 10 ^ k) : ℤ) : ℚ) ≤ ((rhe (y * 10 ^ k) : ℤ) : ℚ) := by
    exact_mod_cast h2
  exact div_le_div_of_nonneg_right h3 hp.le

lemma roundTo_nonneg (k : ℕ) {q : ℚ} (h : 0 ≤ q) : 0 ≤ roundTo k q := by
  unfold roundTo
  have h2 : 0 ≤ rhe (q * 10 ^ k) := rhe_nonneg (by positivity)
  have h3 : (0:ℚ) ≤ (rhe (q * 10 ^ k) : ℚ) := by exact_mod_cast h2
  positivity

lemma roundTo_eval (k : ℕ) (q : ℚ) (n : ℤ) (h : q * 10 ^ k = (n:ℚ)) :
    roundTo k q = (n:ℚ) / 10 ^ k := by
  unfold roundTo
  rw [h, rhe_intCast]

lemma roundTo_fix (k : ℕ) (q : ℚ) (n : ℤ) (h : q * 10 ^ k = (n:ℚ)) :
    roundTo k q = q := by
  rw [roundTo_eval k q n h]
  field_simp at h ⊢
  linarith

lemma roundTo_zero (k : ℕ) : roundTo k 0 = 0 :=
  roundTo_fix k 0 0 (by norm_num)

lemma roundTo_nonpos (k : ℕ) {q : ℚ} (h : q ≤ 0) : roundTo k q ≤ 0 := by
  have h2 := roundTo_mono k h
  rwa [roundTo_zero] at h2

lemma rhe_eq_down (q : ℚ) (n : ℤ) (h1 : (n:ℚ) ≤ q) (h2 : q < (n:ℚ) + 1/2) :
    rhe q = n := by
  have hf : ⌊q⌋ = n := by
    rw [Int.floor_eq_iff]
    exact ⟨h1, by linarith⟩
  unfold rhe
  rw [hf]
  split_ifs with ha hb <;> [rfl; linarith; linarith; linarith]

lemma rhe_eq_up (q : ℚ) (n : ℤ) (h1 : (n:ℚ) + 1/2 < q) (h2 : q < (n:ℚ) + 1) :
    rhe q = n + 1 := by
  have hf : ⌊q⌋ = n := by
    rw [Int.floor_eq_iff]
    exact ⟨by linarith, by linarith⟩
  unfold rhe
  rw [hf]
  split_ifs with ha hb <;> [linarith; rfl; linarith; linarith]

/-! ### Characterizations of the entry mutators -/

/-- Successful purchase, as a single formula: the branch split of the
source collapses to the weighted-average expression. -/
lemma purchase_ok (it : Item) (qty : ℤ) (p : ℚ) (hq0 : 0 ≤ it.quantity)
    (hq : 0 < qty) (hp : 0 ≤ p) :
    it.purchase qty p = .ok { it with
      quantity := it.quantity + qty,
      unit_price := roundTo 4
        ((it.unit_price * it.quantity + p * qty) / ((it.quantity + qty : ℤ) : ℚ)),
      total_cost := roundTo 2 (it.total_cost + qty * p) } := by
  unfold Item.purchase
  rw [if_neg (by omega), if_neg (by linarith)]
  rcases lt_or_eq_of_le hq0 with h | h
  · simp only [if_pos h]
  · simp only [if_neg (show ¬0 < it.quantity by omega)]
    have hz : it.quantity = 0 := h.symm
    have hqQ : ((qty:ℚ)) ≠ 0 := by
      exact_mod_cast hq.ne'
    have hpr : (it.unit_price * it.quantity + p * qty) / ((it.quantity + qty : ℤ) : ℚ) = p := by
      rw [hz]
      push_cast
      rw [mul_zero, zero_add, zero_add, mul_div_assoc, div_self hqQ, mul_one]
    rw [hpr]

/-- Successful sale, as a single formula. -/
lemma sell_ok (it : Item) (qty : ℤ) (sp : Option ℚ) (h1 : 0 < qty)
    (h2 : qty ≤ it.quantity) :
    it.sell qty sp = .ok
      (roundTo 2 ((sp.getD it.unit_price - it.total_cost / it.quantity) * qty),
       { it with quantity := it.quantity - qty,
                 total_cost := roundTo 2
                   (it.total_cost - it.total_cost / it.quantity * qty) }) := by
  unfold Item.sell
  rw [if_neg (by omega), if_neg (by omega), if_pos (by omega)]

/-- `Item.sell` never raises the item-not-found condition. -/
lemma sell_ne_notFound (it : Item) (qty : ℤ) (sp : Option ℚ) :
    it.sell qty sp ≠ .error .ItemNotFound := by
  unfold Item.sell
  split_ifs <;> simp

/-- The quantity-weighted average of two values lies between them. -/
lemma avg_between {u p : ℚ} {q0 qty : ℤ} (hq0 : 0 ≤ q0) (hqty : 0 < qty) :
    min u p ≤ (u * q0 + p * qty) / ((q0 : ℚ) + qty) ∧
    (u * q0 + p * qty) / ((q0 : ℚ) + qty) ≤ max u p := by
  have hq0Q : (0:ℚ) ≤ (q0 : ℚ) := by exact_mod_cast hq0
  have hqtyQ : (0:ℚ) < (qty : ℚ) := by exact_mod_cast hqty
  have hden : (0:ℚ) < (q0 : ℚ) + qty := by linarith
  constructor
  · rw [le_div_iff₀ hden]
    have h1 := min_le_left u p
    have h2 := min_le_right u p
    nlinarith
  · rw [div_le_iff₀ hden]
    have h1 := le_max_left u p
    have h2 := le_max_right u p
    nlinarith

/-- Purchase preserves the nonnegativity invariant. -/
lemma purchase_preserves_good {it it2 : Item} {qty : ℤ} {p : ℚ}
    (hg : goodItem it) (hok : it.purchase qty p = .ok it2) : goodItem it2 := by
  obtain ⟨hq0, hu0, ht0⟩ := hg
  unfold Item.purchase at hok
  by_cases hq : qty ≤ 0
  · rw [if_pos hq] at hok; exact absurd hok (by simp)
  rw [if_neg hq] at hok
  by_cases hp : p < 0
  · rw [if_pos hp] at hok; exact absurd hok (by simp)
  rw [if_neg hp] at hok
  push_neg at hq hp
  simp only [Except.ok.injEq] at hok
  subst hok
  refine ⟨by simp; omega, ?_, ?_⟩
  · simp only
    apply roundTo_nonneg
    split_ifs with h
    · apply div_nonneg
      · have : (0:ℚ) ≤ (it.quantity : ℚ) := by exact_mod_cast hq0
        have : (0:ℚ) ≤ (qty : ℚ) := by exact_mod_cast hq.le
        positivity
      · have : (0:ℚ) ≤ (it.quantity : ℚ) := by exact_mod_cast hq0
        have : (0:ℚ) < (qty : ℚ) := by exact_mod_cast hq
        push_cast
        linarith
    · exact hp
  · simp only
    apply roundTo_nonneg
    have : (0:ℚ) ≤ (qty : ℚ) := by exact_mod_cast hq.le
    nlinarith

/-- Sale preserves the nonnegativity invariant. -/
lemma sell_preserves_good {it it2 : Item} {qty : ℤ} {sp : Option ℚ} {profit : ℚ}
    (hg : goodItem it) (hok : it.sell qty sp = .ok (profit, it2)) :
    goodItem it2 := by
  obtain ⟨hq0, hu0, ht0⟩ := hg
  unfold Item.sell at hok
  by_cases hq : qty ≤ 0
  · rw [if_pos hq] at hok; exact absurd hok (by simp)
  rw [if_neg hq] at hok
  by_cases hs : it.quantity < qty
  · rw [if_pos hs] at hok; exact absurd hok (by simp)
  rw [if_neg hs] at hok
  push_neg at hq hs
  simp only [Except.ok.injEq, Prod.mk.injEq] at hok
  obtain ⟨-, hok⟩ := hok
  subst hok
  have hqpos : 0 < it.quantity := by omega
  refine ⟨by simp; omega, hu0, ?_⟩
  simp only
  apply roundTo_nonneg
  rw [if_pos hqpos]
  have hQ : (0:ℚ) < (it.quantity : ℚ) := by exact_mod_cast hqpos
  have hle : (qty : ℚ) ≤ (it.quantity : ℚ) := by exact_mod_cast hs
  have hcpu : 0 ≤ it.total_cost / it.quantity := by positivity
  have h1 : it.total_cost / it.quantity * qty ≤ it.total_cost / it.quantity * it.quantity := by
    have hqQ : (0:ℚ) ≤ (qty : ℚ) := by exact_mod_cast (by omega : (0:ℤ) ≤ qty)
    exact mul_le_mul_of_nonneg_left hle hcpu
  have h2 : it.total_cost / it.quantity * it.quantity = it.total_cost :=
    div_mul_cancel₀ _ hQ.ne'
  linarith

/-- Every successful run of operations from an invariant-satisfying entry
re-establishes the invariant. -/
lemma runOps_preserves_good {it it2 : Item} {ops : List Op}
    (hg : goodItem it) (hok : runOps it ops = .ok it2) : goodItem it2 := by
  induction ops generalizing it with
  | nil =>
    unfold runOps at hok
    simp only [Except.ok.injEq] at hok
    subst hok
    exact hg
  | cons op ops ih =>
    unfold runOps at hok
    cases hstep : applyOp it op with
    | error e => rw [hstep] at hok; exact absurd hok (by simp [Except.bind])
    | ok it1 =>
      rw [hstep] at hok
      simp only [Except.bind] at hok
      apply ih ?_ hok
      cases op with
      | purchase qty price =>
        simp only [applyOp] at hstep
        exact purchase_preserves_good hg hstep
      | sell qty salePrice =>
        simp only [applyOp] at hstep
        cases hs : it.sell qty salePrice with
        | error e => rw [hs] at hstep; exact absurd hstep (by simp [Except.map])
        | ok pr =>
          rw [hs] at hstep
          cases pr with
          | mk profit it1x =>
            simp only [Except.map, Except.ok.injEq] at hstep
            subst hstep
            exact sell_preserves_good hg hs

/-! ### Claims -/

/-- C2: for an entry with nonnegative quantity and unit cost, a purchase of
`qty > 0` units at price `p ≥ 0` sets `quantity = q0 + qty`,
`unitCost = round4((u0*q0 + p*qty)/(q0+qty))` (round half to even) and
`totalCost = round2(totalCost + qty*p)`, leaving all other fields
unchanged. -/
theorem purchase_updates_weighted_average (it : Item) (qty : ℤ) (p : ℚ)
    (hq0 : 0 ≤ it.quantity) (hu0 : 0 ≤ it.unit_price) (hq : 0 < qty)
    (hp : 0 ≤ p) :
    it.purchase qty p = .ok { it with
      quantity := it.quantity + qty,
      unit_price := roundTo 4
        ((it.unit_price * it.quantity + p * qty) / ((it.quantity + qty : ℤ) : ℚ)),
      total_cost := roundTo 2 (it.total_cost + qty * p) } :=
  purchase_ok it qty p hq0 hq hp

/-- Witness for C2: Scenario A's second purchase, 10 @ 4.00 into the state
`quantity=10, unitCost=2.00, totalCost=20.00`, yields `quantity=20,
unitCost=3.00, totalCost=60.00`. -/
theorem purchase_updates_weighted_average_witness :
    (0:ℤ) ≤ 10 ∧ (0:ℚ) ≤ 2 ∧ (0:ℤ) < 10 ∧ (0:ℚ) ≤ 4 ∧
    (Item.mk "X1" "n" "General" 10 2 20 "" "Main Warehouse").purchase 10 4
      = .ok (Item.mk "X1" "n" "General" 20 3 60 "" "Main Warehouse") := by
  refine ⟨by norm_num, by norm_num, by norm_num, by norm_num, ?_⟩
  have h := purchase_updates_weighted_average
    (Item.mk "X1" "n" "General" 10 2 20 "" "Main Warehouse") 10 4
    (by norm_num) (by norm_num) (by norm_num) (by norm_num)
  rw [h]
  simp only [Except.ok.injEq, Item.mk.injEq]
  norm_num
  exact ⟨roundTo_fix 4 3 30000 (by norm_num), roundTo_fix 2 60 6000 (by norm_num)⟩

/-- C3: a successful sale of `0 < qty ≤ quantity` computes
`costPerUnit = totalCost/quantity`, decrements the quantity, sets
`totalCost = round2(totalCost - costPerUnit*qty)`, leaves `unitCost` (and
all metadata) unchanged and returns
`profit = round2((effectiveSalePrice - costPerUnit)*qty)` with
`effectiveSalePrice = salePrice override ?? unitCost`. -/
theorem sell_updates_cost_basis (it : Item) (qty : ℤ) (sp : Option ℚ)
    (h1 : 0 < qty) (h2 : qty ≤ it.quantity) :
    it.sell qty sp = .ok
      (roundTo 2 ((sp.getD it.unit_price - it.total_cost / it.quantity) * qty),
       { it with quantity := it.quantity - qty,
                 total_cost := roundTo 2
                   (it.total_cost - it.total_cost / it.quantity * qty) }) :=
  sell_ok it qty sp h1 h2

/-- Witness for C3: Scenario B, selling 5 @ 5.00 from `quantity=20,
unitCost=3.00, totalCost=60.00` returns `profit=10.00` and leaves
`quantity=15, totalCost=45.00`, `unitCost` unchanged. -/
theorem sell_updates_cost_basis_witness :
    (0:ℤ) < 5 ∧ (5:ℤ) ≤ 20 ∧
    (Item.mk "X1" "n" "General" 20 3 60 "" "Main Warehouse").sell 5 (some 5)
      = .ok (10, Item.mk "X1" "n" "General" 15 3 45 "" "Main Warehouse") := by
  refine ⟨by norm_num, by norm_num, ?_⟩
  have h := sell_updates_cost_basis
    (Item.mk "X1" "n" "General" 20 3 60 "" "Main Warehouse") 5 (some 5)
    (by norm_num) (by norm_num)
  rw [h]
  simp only [Except.ok.injEq, Prod.mk.injEq, Item.mk.injEq, Option.getD_some]
  norm_num
  exact ⟨roundTo_fix 2 10 1000 (by norm_num), roundTo_fix 2 45 4500 (by norm_num)⟩

/-- C4: with nonnegative stock on hand, a sale of more than the on-hand
quantity fails with `InsufficientStock`, both at the entry and at the
catalog level, leaving the catalog (hence `quantity`, `unitCost` and
`totalCost`) exactly unchanged; and every successful sale leaves a
nonnegative quantity. -/
theorem sell_insufficient_stock_unchanged (inv : EnhancedInventory)
    (sku : String) (it : Item) (qty : ℤ) (sp : Option ℚ)
    (cust sper : String) (rate : ℚ)
    (hl : inv.items sku = some it) (h0 : 0 ≤ it.quantity) :
    (it.quantity < qty →
      it.sell qty sp = .error .InsufficientStock ∧
      inv.sell_item_with_commission sku qty sp cust sper rate
        = (inv, .error .InsufficientStock)) ∧
    (∀ profit it2, it.sell qty sp = .ok (profit, it2) → 0 ≤ it2.quantity) := by
  constructor
  · intro h
    have hsell : it.sell qty sp = .error .InsufficientStock := by
      unfold Item.sell
      rw [if_neg (by omega), if_pos h]
    refine ⟨hsell, ?_⟩
    unfold EnhancedInventory.sell_item_with_commission
    rw [hl]
    simp only [hsell]
  · intro profit it2 hok
    unfold Item.sell at hok
    by_cases hq : qty ≤ 0
    · rw [if_pos hq] at hok; exact absurd hok (by simp)
    rw [if_neg hq] at hok
    by_cases hs : it.quantity < qty
    · rw [if_pos hs] at hok; exact absurd hok (by simp)
    rw [if_neg hs] at hok
    simp only [Except.ok.injEq, Prod.mk.injEq] at hok
    obtain ⟨-, hok⟩ := hok
    subst hok
    simp only
    omega

/-- Witness for C4: Scenario C, selling 100 from a 15-unit stock fails with
`InsufficientStock` and the catalog is returned unchanged. -/
theorem sell_insufficient_stock_unchanged_witness :
    (EnhancedInventory.mk
        (fun s => if s = "A" then some (Item.mk "A" "n" "General" 15 3 45 "" "W") else none) []).items "A"
      = some (Item.mk "A" "n" "General" 15 3 45 "" "W") ∧
    (0:ℤ) ≤ 15 ∧ (15:ℤ) < 100 ∧
    (Item.mk "A" "n" "General" 15 3 45 "" "W").sell 100 none
      = .error .InsufficientStock ∧
    (EnhancedInventory.mk
        (fun s => if s = "A" then some (Item.mk "A" "n" "General" 15 3 45 "" "W") else none) []).sell_item_with_commission
        "A" 100 none "" "" 0
      = (EnhancedInventory.mk
          (fun s => if s = "A" then some (Item.mk "A" "n" "General" 15 3 45 "" "W") else none) [],
         .error .InsufficientStock) := by
  have hl : (EnhancedInventory.mk
      (fun s => if s = "A" then some (Item.mk "A" "n" "General" 15 3 45 "" "W") else none) []).items "A"
      = some (Item.mk "A" "n" "General" 15 3 45 "" "W") := by simp
  have h := sell_insufficient_stock_unchanged
    (EnhancedInventory.mk
      (fun s => if s = "A" then some (Item.mk "A" "n" "General" 15 3 45 "" "W") else none) [])
    "A" (Item.mk "A" "n" "General" 15 3 45 "" "W") 100 none "" "" 0
    hl (by norm_num)
  obtain ⟨hfail, -⟩ := h
  obtain ⟨h1, h2⟩ := hfail (by norm_num)
  exact ⟨hl, by norm_num, by norm_num, h1, h2⟩

/-- C1 (failing input): purchasing a brand-new SKU with `qty = 0` raises
`InvalidQuantity`, but — contrary to the validate-then-commit contract — a
zeroed ledger entry for that SKU has already been inserted and remains in
the catalog after the failure, in both the enhanced and the basic catalog.
(The existing-entry half of the claim does hold: `Item.purchase` validates
before mutating, so an already-present entry is unchanged.) -/
theorem purchase_invalid_qty_creates_entry :
    ((emptyEInv.purchase_item "NEW" "Widget" "Gadgets" 0 1 "" "Main Warehouse").2
       = some InvError.InvalidQuantity) ∧
    ((emptyEInv.purchase_item "NEW" "Widget" "Gadgets" 0 1 "" "Main Warehouse").1.items "NEW"
       = some (freshItem "NEW" "Widget" "Gadgets" "" "Main Warehouse")) ∧
    ((emptyBInv.purchase_item "NEW" "Widget" 0 1).2 = some InvError.InvalidQuantity) ∧
    ((emptyBInv.purchase_item "NEW" "Widget" 0 1).1.items "NEW"
       = some (BItem.mk "NEW" "Widget" 0 0 0)) := by
  have hn : normSku "NEW" = "NEW" := by decide
  have hw : ¬ ("Widget" : String) = "" := by decide
  unfold EnhancedInventory.purchase_item Inventory.purchase_item
  rw [hn]
  simp only [emptyEInv, emptyBInv, if_neg hw]
  norm_num [Item.purchase, BItem.purchase, EnhancedInventory.setItem,
    Inventory.setItem, freshItem]

/-- C6 (amended): `sell_item_with_commission` looks the SKU up *raw*,
without the trim/upper-case normalization `purchase_item` applies when
storing entries; it fails with `ItemNotFound` exactly when the raw SKU
string is absent from the item dictionary. -/
theorem recordSale_notFound_iff_raw_absent (inv : EnhancedInventory)
    (sku : String) (qty : ℤ) (sp : Option ℚ) (cust sper : String) (rate : ℚ) :
    (inv.sell_item_with_commission sku qty sp cust sper rate).2
        = .error .ItemNotFound
      ↔ inv.items sku = none := by
  unfold EnhancedInventory.sell_item_with_commission
  cases h : inv.items sku with
  | none => simp
  | some it =>
    cases hs : it.sell qty sp with
    | error e =>
      simp only [hs]
      constructor
      · intro hcontra
        exfalso
        simp only [Except.error.injEq] at hcontra
        exact sell_ne_notFound it qty sp (by rw [hs, hcontra])
      · intro hcontra
        exact absurd hcontra (by simp)
    | ok pr =>
      obtain ⟨profit, it2⟩ := pr
      simp only [hs]
      constructor
      · intro hcontra
        exact absurd hcontra (by simp)
      · intro hcontra
        exact absurd hcontra (by simp)

/-- C6 (counterexample): after purchasing SKU `"abc"` (stored under the
normalized key `"ABC"`), a sale against the raw string `"abc"` fails with
`ItemNotFound` even though the normalized form names an existing entry —
so `recordSale` does *not* apply the normalization the claim asserts. -/
theorem recordSale_skips_normalization_cex :
    (((emptyEInv.purchase_item "abc" "Nme" "Cat" 1 1 "" "Main Warehouse").1.sell_item_with_commission
        "abc" 1 none "" "" 0).2 = .error .ItemNotFound) ∧
    ((emptyEInv.purchase_item "abc" "Nme" "Cat" 1 1 "" "Main Warehouse").1.items
        (normSku "abc") ≠ none) := by
  have hn : normSku "abc" = "ABC" := by decide
  have hne : ("abc" : String) ≠ "ABC" := by decide
  have hfresh : (emptyEInv.items "ABC") = none := rfl
  have hok : ∃ it2, (freshItem "ABC" "Nme" "Cat" "" "Main Warehouse").purchase 1 1
      = .ok it2 := by
    rw [purchase_ok _ 1 1 (by norm_num [freshItem]) (by norm_num) (by norm_num)]
    exact ⟨_, rfl⟩
  obtain ⟨it2, hok⟩ := hok
  have hnm : ¬ ("Nme" : String) = "" := by decide
  have hres : (emptyEInv.purchase_item "abc" "Nme" "Cat" 1 1 "" "Main Warehouse").1
      = (emptyEInv.setItem "ABC"
          (freshItem "ABC" "Nme" "Cat" "" "Main Warehouse")).setItem "ABC" it2 := by
    unfold EnhancedInventory.purchase_item
    rw [hn]
    simp only [hfresh, if_neg hnm, hok]
  rw [hres, hn]
  refine ⟨?_, ?_⟩
  · unfold EnhancedInventory.sell_item_with_commission
    have : ((emptyEInv.setItem "ABC"
        (freshItem "ABC" "Nme" "Cat" "" "Main Warehouse")).setItem "ABC" it2).items "abc"
        = none := by
      simp [EnhancedInventory.setItem, emptyEInv, hne]
    rw [this]
  · simp [EnhancedInventory.setItem]

/-- C5 (amended): for a successful `sell_item_with_commission`, the
commission returned and stored in the sale row equals
`totalSale * rate/100` with `totalSale = orPrice(salePrice, unitCost) * qty`
— the *Python-falsy* fallback, under which an explicitly supplied
`salePrice` of `0` also falls back to the entry's `unitCost` (unlike the
`??`-style fallback the claim asserts). -/
theorem recordSale_commission_falsy_fallback (inv : EnhancedInventory)
    (sku : String) (it : Item) (qty : ℤ) (sp : Option ℚ)
    (cust sper : String) (rate : ℚ)
    (hl : inv.items sku = some it) (h1 : 0 < qty) (h2 : qty ≤ it.quantity) :
    ∃ inv2 profit,
      inv.sell_item_with_commission sku qty sp cust sper rate
        = (inv2, .ok (profit, orPrice sp it.unit_price * qty * (rate / 100)))
      ∧ inv2.sales = inv.sales ++
          [SaleRecord.mk sku qty (orPrice sp it.unit_price) profit cust sper
            rate (orPrice sp it.unit_price * qty * (rate / 100))] := by
  unfold EnhancedInventory.sell_item_with_commission
  rw [hl]
  simp only [sell_ok it qty sp h1 h2]
  exact ⟨_, _, rfl, rfl⟩

/-- Witness for C5 (amended): Scenario D, a commission rate of 5 on a
100.00 total sale (10 units @ 10.00) yields a commission of 5.00. -/
theorem recordSale_commission_falsy_fallback_witness :
    ((fun s => if s = "A" then some (Item.mk "A" "n" "G" 10 2 20 "" "W") else none) "A"
        = some (Item.mk "A" "n" "G" 10 2 20 "" "W")) ∧
    (0:ℤ) < 10 ∧ (10:ℤ) ≤ 10 ∧
    ∃ inv2 profit,
      (EnhancedInventory.mk
          (fun s => if s = "A" then some (Item.mk "A" "n" "G" 10 2 20 "" "W") else none)
          []).sell_item_with_commission "A" 10 (some 10) "" "" 5
        = (inv2, .ok (profit, 5)) := by
  refine ⟨by simp, by norm_num, by norm_num, ?_⟩
  obtain ⟨inv2, profit, heq, -⟩ := recordSale_commission_falsy_fallback
    (EnhancedInventory.mk
      (fun s => if s = "A" then some (Item.mk "A" "n" "G" 10 2 20 "" "W") else none) [])
    "A" (Item.mk "A" "n" "G" 10 2 20 "" "W") 10 (some 10) "" "" 5
    (by simp) (by norm_num) (by norm_num)
  refine ⟨inv2, profit, ?_⟩
  rw [heq]
  have : orPrice (some 10) (Item.mk "A" "n" "G" 10 2 20 "" "W").unit_price * (10:ℤ) * (5 / 100)
      = (5:ℚ) := by
    simp [orPrice]
    norm_num
  rw [this]

/-- C5 (counterexample): with an explicitly supplied sale price of 0 the
commission is computed from the entry's unit cost (Python's falsy `or`),
not from the supplied price: on a 10-unit entry at unit cost 2.00, selling
5 units at an explicit price of 0 with rate 5 returns a commission of
0.50, whereas the claim's formula `(salePrice ?? unitCost) * qty * rate/100`
gives 0. -/
theorem recordSale_commission_zero_price_cex :
    (∃ inv2 profit,
      (EnhancedInventory.mk
          (fun s => if s = "A" then some (Item.mk "A" "n" "G" 10 2 20 "" "W") else none)
          []).sell_item_with_commission "A" 5 (some 0) "" "" 5
        = (inv2, .ok (profit, 1/2))) ∧
    (1:ℚ)/2 ≠ 0 * 5 * (5 / 100) := by
  refine ⟨?_, by norm_num⟩
  obtain ⟨inv2, profit, heq, -⟩ := recordSale_commission_falsy_fallback
    (EnhancedInventory.mk
      (fun s => if s = "A" then some (Item.mk "A" "n" "G" 10 2 20 "" "W") else none) [])
    "A" (Item.mk "A" "n" "G" 10 2 20 "" "W") 5 (some 0) "" "" 5
    (by simp) (by norm_num) (by norm_num)
  refine ⟨inv2, profit, ?_⟩
  rw [heq]
  have : orPrice (some 0) (Item.mk "A" "n" "G" 10 2 20 "" "W").unit_price * (5:ℤ) * (5 / 100)
      = (1:ℚ)/2 := by
    simp [orPrice]
    norm_num
  rw [this]

/-- A successful purchase never changes the descriptive metadata fields. -/
lemma purchase_metadata {it it2 : Item} {qty : ℤ} {p : ℚ}
    (hok : it.purchase qty p = .ok it2) :
    it2.name = it.name ∧ it2.category = it.category ∧
    it2.supplier = it.supplier ∧ it2.location = it.location := by
  unfold Item.purchase at hok
  split_ifs at hok
  all_goals
    first
    | (simp only [Except.ok.injEq] at hok
       subst hok
       exact ⟨rfl, rfl, rfl, rfl⟩)
    | exact absurd hok (by simp)

/-- A successful basic-catalog purchase never changes the name field. -/
lemma bpurchase_name {it it2 : BItem} {qty : ℤ} {p : ℚ}
    (hok : it.purchase qty p = .ok it2) : it2.name = it.name := by
  unfold BItem.purchase at hok
  split_ifs at hok
  all_goals
    first
    | (simp only [Except.ok.injEq] at hok
       subst hok
       exact rfl)
    | exact absurd hok (by simp)

/-- C7 (amended): when the stored unit cost and the purchase price are both
4-decimal values (fixed points of `roundTo 4`), the unit cost stored after
a purchase lies between `min(u0, p)` and `max(u0, p)` inclusive.  (Without
the 4-decimal restriction the final rounding step can leave the interval —
see the counterexample.) -/
theorem purchase_unit_cost_bounded (it : Item) (qty : ℤ) (p : ℚ) (it2 : Item)
    (hq0 : 0 ≤ it.quantity) (hu0 : 0 ≤ it.unit_price) (hq : 0 < qty)
    (hp : 0 ≤ p) (hu4 : roundTo 4 it.unit_price = it.unit_price)
    (hp4 : roundTo 4 p = p) (hok : it.purchase qty p = .ok it2) :
    min it.unit_price p ≤ it2.unit_price ∧
    it2.unit_price ≤ max it.unit_price p := by
  rw [purchase_ok it qty p hq0 hq hp] at hok
  simp only [Except.ok.injEq] at hok
  subst hok
  simp only
  have hc : ((it.quantity + qty : ℤ) : ℚ) = (it.quantity : ℚ) + (qty : ℚ) := by
    push_cast; ring
  rw [hc]
  have hb := avg_between (u := it.unit_price) (p := p) hq0 hq
  have hmin : roundTo 4 (min it.unit_price p) = min it.unit_price p := by
    rcases min_cases it.unit_price p with ⟨h, -⟩ | ⟨h, -⟩ <;> rw [h]
    exacts [hu4, hp4]
  have hmax : roundTo 4 (max it.unit_price p) = max it.unit_price p := by
    rcases max_cases it.unit_price p with ⟨h, -⟩ | ⟨h, -⟩ <;> rw [h]
    exacts [hu4, hp4]
  constructor
  · rw [← hmin]; exact roundTo_mono 4 hb.1
  · rw [← hmax]; exact roundTo_mono 4 hb.2

/-- Witness for C7 (amended): purchasing 10 @ 4.00 into 10 units at unit
cost 2.00 stores unit cost 3.00, which lies in `[2, 4]`. -/
theorem purchase_unit_cost_bounded_witness :
    roundTo 4 (2:ℚ) = 2 ∧ roundTo 4 (4:ℚ) = 4 ∧
    (Item.mk "X1" "n" "G" 10 2 20 "" "W").purchase 10 4
      = .ok (Item.mk "X1" "n" "G" 20 3 60 "" "W") ∧
    min (2:ℚ) 4 ≤ (Item.mk "X1" "n" "G" 20 3 60 "" "W").unit_price ∧
    (Item.mk "X1" "n" "G" 20 3 60 "" "W").unit_price ≤ max (2:ℚ) 4 := by
  have hr2 : roundTo 4 (2:ℚ) = 2 := roundTo_fix 4 2 20000 (by norm_num)
  have hr4 : roundTo 4 (4:ℚ) = 4 := roundTo_fix 4 4 40000 (by norm_num)
  have hok : (Item.mk "X1" "n" "G" 10 2 20 "" "W").purchase 10 4
      = .ok (Item.mk "X1" "n" "G" 20 3 60 "" "W") := by
    rw [purchase_ok _ 10 4 (by norm_num) (by norm_num) (by norm_num)]
    simp only [Except.ok.injEq, Item.mk.injEq]
    norm_num
    exact ⟨roundTo_fix 4 3 30000 (by norm_num), roundTo_fix 2 60 6000 (by norm_num)⟩
  have hmain := purchase_unit_cost_bounded (Item.mk "X1" "n" "G" 10 2 20 "" "W")
    10 4 (Item.mk "X1" "n" "G" 20 3 60 "" "W") (by norm_num) (by norm_num)
    (by norm_num) (by norm_num) hr2 hr4 hok
  exact ⟨hr2, hr4, hok, hmain.1, hmain.2⟩

/-- C7 (counterexample): buying 1 unit of a fresh entry at price 0.00008
stores unit cost `round4(0.00008) = 0.0001`, which exceeds
`max(u0, p) = 0.00008` — the claim fails for prices that are not 4-decimal
values. -/
theorem purchase_unit_cost_rounding_cex :
    (Item.mk "A" "n" "G" 0 0 0 "" "W").purchase 1 (8/100000)
      = .ok (Item.mk "A" "n" "G" 1 (1/10000) 0 "" "W")
    ∧ max (0:ℚ) (8/100000) < 1/10000 := by
  constructor
  · rw [purchase_ok _ 1 (8/100000) (by norm_num) (by norm_num) (by norm_num)]
    simp only [Except.ok.injEq, Item.mk.injEq]
    norm_num
    constructor
    · unfold roundTo
      rw [show (1:ℚ)/12500 * 10 ^ 4 = 4/5 by norm_num,
          rhe_eq_up (4/5) 0 (by norm_num) (by norm_num)]
      norm_num
    · unfold roundTo
      rw [show (1:ℚ)/12500 * 10 ^ 2 = 1/125 by norm_num,
          rhe_eq_down (1/125) 0 (by norm_num) (by norm_num)]
      norm_num
  · norm_num

/-- C8: every sequence of successful purchase/sell operations starting from
a freshly created entry keeps `quantity`, `unitCost` and `totalCost`
nonnegative. -/
theorem ledger_invariant_preserved (sku name category supplier location : String)
    (ops : List Op) (it2 : Item)
    (h : runOps (freshItem sku name category supplier location) ops = .ok it2) :
    goodItem it2 :=
  runOps_preserves_good (by simp [freshItem, goodItem]) h

/-- Witness for C8: the sequence purchase 10 @ 2.00 then sell 5 @ 5.00
from a fresh entry succeeds and the invariant holds at the result. -/
theorem ledger_invariant_preserved_witness :
    runOps (freshItem "A" "n" "G" "" "W") [Op.purchase 10 2, Op.sell 5 (some 5)]
      = .ok (Item.mk "A" "n" "G" 5 2 10 "" "W")
    ∧ goodItem (Item.mk "A" "n" "G" 5 2 10 "" "W") := by
  have e1 : (freshItem "A" "n" "G" "" "W").purchase 10 2
      = .ok (Item.mk "A" "n" "G" 10 2 20 "" "W") := by
    rw [purchase_ok _ 10 2 (by norm_num [freshItem]) (by norm_num) (by norm_num)]
    simp only [freshItem, Except.ok.injEq, Item.mk.injEq]
    norm_num
    exact ⟨roundTo_fix 4 2 20000 (by norm_num), roundTo_fix 2 20 2000 (by norm_num)⟩
  have e2 : (Item.mk "A" "n" "G" 10 2 20 "" "W").sell 5 (some 5)
      = .ok (15, Item.mk "A" "n" "G" 5 2 10 "" "W") := by
    rw [sell_ok _ 5 (some 5) (by norm_num) (by norm_num)]
    simp only [Except.ok.injEq, Prod.mk.injEq, Item.mk.injEq, Option.getD_some]
    norm_num
    exact ⟨roundTo_fix 2 15 1500 (by norm_num), roundTo_fix 2 10 1000 (by norm_num)⟩
  have hrun : runOps (freshItem "A" "n" "G" "" "W")
      [Op.purchase 10 2, Op.sell 5 (some 5)]
      = .ok (Item.mk "A" "n" "G" 5 2 10 "" "W") := by
    simp [runOps, applyOp, e1, e2, Except.bind, Except.map]
  exact ⟨hrun, ledger_invariant_preserved "A" "n" "G" "" "W" _ _ hrun⟩

/-- C9 (amended): on a purchase against an already-existing SKU the
enhanced catalog leaves *all* stored metadata (name, category, supplier,
location) unchanged — the supplied arguments are used only at entry
creation — while the basic catalog overwrites only `name`, and only when a
non-empty name is supplied. -/
theorem purchase_metadata_last_write_policy (inv : EnhancedInventory)
    (binv : Inventory) (sku name category supplier location : String)
    (qty : ℤ) (p : ℚ) (it : Item) (bit : BItem)
    (hl : inv.items (normSku sku) = some it)
    (hbl : binv.items (normSku sku) = some bit) :
    (∀ inv2, inv.purchase_item sku name category qty p supplier location
        = (inv2, none) →
      ∃ it2, inv2.items (normSku sku) = some it2 ∧ it2.name = it.name
        ∧ it2.category = it.category ∧ it2.supplier = it.supplier
        ∧ it2.location = it.location) ∧
    (∀ binv2, binv.purchase_item sku name qty p = (binv2, none) → name ≠ "" →
      ∃ bit2, binv2.items (normSku sku) = some bit2 ∧ bit2.name = name) := by
  constructor
  · intro inv2 h
    unfold EnhancedInventory.purchase_item at h
    simp only [hl] at h
    cases hp : it.purchase qty p with
    | error e =>
      simp only [hp] at h
      exact absurd h (by simp)
    | ok it2x =>
      simp only [hp] at h
      obtain ⟨hm1, hm2, hm3, hm4⟩ := purchase_metadata hp
      refine ⟨it2x, ?_, hm1, hm2, hm3, hm4⟩
      have h2 : inv2 = inv.setItem (normSku sku) it2x := by
        have := congrArg Prod.fst h
        simpa using this.symm
      rw [h2]
      simp [EnhancedInventory.setItem]
  · intro binv2 h hname
    unfold Inventory.purchase_item at h
    simp only [hbl, if_neg hname] at h
    cases hp : ({ bit with name := name } : BItem).purchase qty p with
    | error e =>
      simp only [hp] at h
      exact absurd h (by simp)
    | ok bit2x =>
      simp only [hp] at h
      have hm := bpurchase_name hp
      refine ⟨bit2x, ?_, by rw [hm]⟩
      have h2 : binv2 = (binv.setItem (normSku sku)
          { bit with name := name }).setItem (normSku sku) bit2x := by
        have := congrArg Prod.fst h
        simpa using this.symm
      rw [h2]
      simp [Inventory.setItem]

/-- Witness for C9 (amended): repurchasing SKU `"A"` with fresh metadata
`"N2"`/`"C2"` leaves the stored `"N1"`/`"C1"` entry's metadata unchanged in
the enhanced catalog, and updates the name in the basic catalog. -/
theorem purchase_metadata_last_write_policy_witness :
    ((EnhancedInventory.mk
        (fun s => if s = "A" then some (Item.mk "A" "N1" "C1" 1 1 1 "S1" "L1") else none)
        []).items (normSku "A") = some (Item.mk "A" "N1" "C1" 1 1 1 "S1" "L1")) ∧
    ((Inventory.mk
        (fun s => if s = "A" then some (BItem.mk "A" "N1" 1 1 1) else none)).items
        (normSku "A") = some (BItem.mk "A" "N1" 1 1 1)) ∧
    (∀ inv2, (EnhancedInventory.mk
        (fun s => if s = "A" then some (Item.mk "A" "N1" "C1" 1 1 1 "S1" "L1") else none)
        []).purchase_item "A" "N2" "C2" 1 1 "S2" "L2" = (inv2, none) →
      ∃ it2, inv2.items (normSku "A") = some it2 ∧ it2.name = "N1"
        ∧ it2.category = "C1" ∧ it2.supplier = "S1" ∧ it2.location = "L1") ∧
    (∀ binv2, (Inventory.mk
        (fun s => if s = "A" then some (BItem.mk "A" "N1" 1 1 1) else none)).purchase_item
        "A" "N2" 1 1 = (binv2, none) → ("N2" : String) ≠ "" →
      ∃ bit2, binv2.items (normSku "A") = some bit2 ∧ bit2.name = "N2") := by
  have hn : normSku "A" = "A" := by decide
  have hl : (EnhancedInventory.mk
      (fun s => if s = "A" then some (Item.mk "A" "N1" "C1" 1 1 1 "S1" "L1") else none)
      []).items (normSku "A") = some (Item.mk "A" "N1" "C1" 1 1 1 "S1" "L1") := by
    simp [hn]
  have hbl : (Inventory.mk
      (fun s => if s = "A" then some (BItem.mk "A" "N1" 1 1 1) else none)).items
      (normSku "A") = some (BItem.mk "A" "N1" 1 1 1) := by
    simp [hn]
  have hmain := purchase_metadata_last_write_policy
    (EnhancedInventory.mk
      (fun s => if s = "A" then some (Item.mk "A" "N1" "C1" 1 1 1 "S1" "L1") else none) [])
    (Inventory.mk (fun s => if s = "A" then some (BItem.mk "A" "N1" 1 1 1) else none))
    "A" "N2" "C2" "S2" "L2" 1 1
    (Item.mk "A" "N1" "C1" 1 1 1 "S1" "L1") (BItem.mk "A" "N1" 1 1 1) hl hbl
  exact ⟨hl, hbl, hmain.1, hmain.2⟩

/-- On an existing SKU, a successful purchase stores the updated item
under the normalized key. -/
lemma epurchase_existing_ok (inv : EnhancedInventory)
    (sku name category supplier location : String) (qty : ℤ) (p : ℚ)
    (it it2 : Item) (hl : inv.items (normSku sku) = some it)
    (hok : it.purchase qty p = .ok it2) :
    (inv.purchase_item sku name category qty p supplier location).1.items
      (normSku sku) = some it2 := by
  unfold EnhancedInventory.purchase_item
  simp only [hl, hok]
  simp [EnhancedInventory.setItem]

/-- C9 (counterexample): in the enhanced catalog a successful repurchase of
an existing SKU with non-empty metadata `"N2"`/`"C2"`/`"S2"`/`"L2"` leaves
the previously stored `"N1"`/`"C1"`/`"S1"`/`"L1"` in place — metadata is
*not* overwritten last-write-wins as the claim asserts. -/
theorem purchase_metadata_not_overwritten_cex :
    ∃ it2,
      ((EnhancedInventory.mk
          (fun s => if s = "A" then some (Item.mk "A" "N1" "C1" 1 1 1 "S1" "L1") else none)
          []).purchase_item "A" "N2" "C2" 1 1 "S2" "L2").1.items "A" = some it2
      ∧ it2.name = "N1" ∧ it2.category = "C1" ∧ it2.supplier = "S1"
      ∧ it2.location = "L1" ∧ it2.name ≠ "N2" ∧ it2.category ≠ "C2" := by
  have hn : normSku "A" = "A" := by decide
  have hl : (EnhancedInventory.mk
      (fun s => if s = "A" then some (Item.mk "A" "N1" "C1" 1 1 1 "S1" "L1") else none)
      []).items (normSku "A") = some (Item.mk "A" "N1" "C1" 1 1 1 "S1" "L1") := by
    simp [hn]
  cases hok2 : (Item.mk "A" "N1" "C1" 1 1 1 "S1" "L1").purchase 1 1 with
  | error e =>
    have hok := purchase_ok (Item.mk "A" "N1" "C1" 1 1 1 "S1" "L1") 1 1
      (by norm_num) (by norm_num) (by norm_num)
    rw [hok2] at hok
    exact absurd hok (by simp)
  | ok it2x =>
    obtain ⟨hm1, hm2, hm3, hm4⟩ := purchase_metadata hok2
    have hitems := epurchase_existing_ok _ "A" "N2" "C2" "S2" "L2" 1 1 _ it2x hl hok2
    rw [hn] at hitems
    exact ⟨it2x, hitems, hm1, hm2, hm3, hm4,
      by rw [hm1]; decide, by rw [hm2]; decide⟩

/-- C10 (amended): `Item.sell` validates only the quantity — the only
errors it can raise are `InvalidQuantity` and `InsufficientStock`; with
`0 < qty ≤ quantity` it succeeds for *every* sale price (zero and negative
included), strictly decreases the quantity, and returns a profit that is
nonpositive whenever the price does not exceed `costPerUnit` (after the
2-decimal rounding the returned profit can be exactly 0 rather than
negative — see the counterexample). -/
theorem sell_no_price_validation (it : Item) (qty : ℤ) (sp : ℚ)
    (h1 : 0 < qty) (h2 : qty ≤ it.quantity) :
    (∀ q s e, it.sell q s = .error e →
       e = InvError.InvalidQuantity ∨ e = InvError.InsufficientStock) ∧
    ∃ profit it2,
      it.sell qty (some sp) = .ok (profit, it2)
      ∧ it2.quantity < it.quantity
      ∧ (sp ≤ it.total_cost / it.quantity → profit ≤ 0) := by
  constructor
  · intro q s e herr
    unfold Item.sell at herr
    split_ifs at herr
    · simp only [Except.error.injEq] at herr
      exact Or.inl herr.symm
    · simp only [Except.error.injEq] at herr
      exact Or.inr herr.symm
  · rw [sell_ok it qty (some sp) h1 h2]
    refine ⟨_, _, rfl, ?_, ?_⟩
    · show it.quantity - qty < it.quantity
      omega
    · intro hle
      simp only [Option.getD_some]
      apply roundTo_nonpos
      have hqQ : (0:ℚ) ≤ (qty:ℚ) := by exact_mod_cast h1.le
      have hsp : sp - it.total_cost / it.quantity ≤ 0 := by linarith
      exact mul_nonpos_iff.mpr (Or.inr ⟨hsp, hqQ⟩)

/-- Witness for C10 (amended): selling 5 units at an explicit price of 0
from 10 units at cost basis 20.00 succeeds and returns the loss -10.00. -/
theorem sell_no_price_validation_witness :
    (0:ℤ) < 5 ∧ (5:ℤ) ≤ 10 ∧
    ∃ profit it2,
      (Item.mk "A" "n" "G" 10 2 20 "" "W").sell 5 (some 0) = .ok (profit, it2)
      ∧ it2.quantity < 10 ∧ profit ≤ 0 := by
  refine ⟨by norm_num, by norm_num, ?_⟩
  obtain ⟨-, profit, it2, hok, hlt, hp⟩ := sell_no_price_validation
    (Item.mk "A" "n" "G" 10 2 20 "" "W") 5 0 (by norm_num) (by norm_num)
  exact ⟨profit, it2, hok, hlt, hp (by norm_num)⟩

/-- C10 (counterexample): with 1 unit at cost basis 0.01 (cost per unit
0.01), selling at the explicit price 0.009 — strictly below cost — succeeds
but returns profit `round2(-0.001) = 0.00`, which is not negative: the
"returns a negative profit" part of the claim fails at rounding
granularity. -/
theorem sell_profit_rounds_to_zero_cex :
    (Item.mk "A" "n" "G" 1 (1/100) (1/100) "" "W").sell 1 (some (9/1000))
      = .ok (0, Item.mk "A" "n" "G" 0 (1/100) 0 "" "W")
    ∧ (9:ℚ)/1000 < (1/100 : ℚ) / 1
    ∧ ¬ ((0:ℚ) < 0) := by
  refine ⟨?_, by norm_num, by norm_num⟩
  rw [sell_ok _ 1 (some (9/1000)) (by norm_num) (by norm_num)]
  simp only [Except.ok.injEq, Prod.mk.injEq, Item.mk.injEq, Option.getD_some]
  norm_num
  constructor
  · unfold roundTo
    rw [show (-(1 / 1000) : ℚ) * 10 ^ 2 = -1/10 by norm_num,
        rhe_eq_up (-1/10) (-1) (by norm_num) (by norm_num)]
    norm_num
  · rw [roundTo_zero]
